import Mathlib

/-!
Shallow embedding of `src/app.py` (YouTube Video Finder & Analyzer).

External effects — the YouTube search and metadata API calls, the Gemini
model call, and the Streamlit UI — are modelled as explicit oracle
arguments: an `Except` value stands for the outcome of a network call,
`ok` carrying the response and `error` standing for a raised exception.
Python floats are idealised as exact rationals.
-/

namespace YTApp

/-- One item of the YouTube metadata API response (`youtube.videos().list`),
restricted to the fields `filter_videos` reads: `item['id']`,
`item['snippet']['title']`, `item['contentDetails']['duration']`. -/
structure Item where
  id : String
  title : String
  duration : String
deriving DecidableEq

/-- A Video Record as built by `filter_videos`: title, watch URL derived from
the identifier, and duration in minutes rounded to 2 decimals. -/
structure Video where
  title : String
  url : String
  duration : ℚ
deriving DecidableEq

/-- One item of the search API response read by `search_youtube`:
`item['id']['videoId']`. -/
structure SearchItem where
  videoId : String
deriving DecidableEq

/-- Python `round(x, 2)` on an exact rational: round to two decimal places,
ties going to the even hundredth (banker's rounding). -/
def pyRound2 (q : ℚ) : ℚ :=
  let s : ℚ := q * 100
  let f : ℤ := ⌊s⌋
  let frac : ℚ := s - f
  let c : ℤ :=
    if frac < 1/2 then f
    else if 1/2 < frac then f + 1
    else if f % 2 = 0 then f else f + 1
  (c : ℚ) / 100

/-- Numeric value of a decimal digit character. -/
def digitVal (c : Char) : Nat := c.toNat - 48

/-- Value of a big-endian decimal digit string, read left to right. -/
def digitsVal (ds : List Char) : Nat := ds.foldl (fun a c => a * 10 + digitVal c) 0

/-- Big-endian decimal digits of a natural number, the standard numeral. -/
def natToDigits (n : Nat) : List Char :=
  if n < 10 then [Nat.digitChar n]
  else natToDigits (n / 10) ++ [Nat.digitChar (n % 10)]
decreasing_by exact Nat.div_lt_self (by omega) (by omega)

/-- Reads one digits-then-designator component off the front of `cs`:
returns the numeric value and the remainder when the first non-digit
character is exactly `d` and at least one digit precedes it; otherwise
reports the component absent and leaves `cs` unchanged. -/
def splitComp (cs : List Char) (d : Char) : Option Nat × List Char :=
  let digits := cs.takeWhile Char.isDigit
  match cs.dropWhile Char.isDigit with
  | c :: rest => if c = d ∧ digits ≠ [] then (some (digitsVal digits), rest) else (none, cs)
  | [] => (none, cs)

/-- Parses the time part of an ISO-8601 duration (hours, minutes, seconds
components in order, each optional but at least one present, nothing left
over) and returns the total number of seconds. -/
def parseTimePart (cs : List Char) : Option Nat :=
  let hp := splitComp cs 'H'
  let mp := splitComp hp.2 'M'
  let sp := splitComp mp.2 'S'
  if sp.2 = [] ∧ (hp.1.isSome ∨ mp.1.isSome ∨ sp.1.isSome) then
    some (hp.1.getD 0 * 3600 + mp.1.getD 0 * 60 + sp.1.getD 0)
  else none

/-- Modelled from the spec: the third-party `isodate` library is not part of
this repository.  Per the Duration Parser contract the input is an ISO-8601
time duration such as "PT5M30S"; its hours, minutes and seconds components
are decomposed and summed into total seconds, and malformed input fails
(`none` models the raised exception). -/
def isodate_total_seconds (iso : String) : Option Nat :=
  match iso.data with
  | 'P' :: 'T' :: rest => parseTimePart rest
  | _ => none

/-- `parse_duration` from `src/app.py`: total seconds of the parsed ISO
duration divided by 60; `none` models the exception propagated on malformed
input. -/
def parse_duration (iso : String) : Option ℚ :=
  (isodate_total_seconds iso).map (fun t : Nat => (t : ℚ) / 60)

/-- `search_youtube` from `src/app.py`.  `apiResult` is the outcome of the
`youtube.search().list(...).execute()` call; on an empty query the call is
never made and on an exception the error is shown and `[]` returned. -/
def search_youtube (query : String) (apiResult : Except String (List SearchItem)) :
    List String :=
  if query.isEmpty then []
  else
    match apiResult with
    | .error _ => []
    | .ok items => items.map SearchItem.videoId

/-- The Video Record dictionary built inside `filter_videos` for one
metadata item whose parsed duration is `dur`. -/
def video_record (item : Item) (dur : ℚ) : Video :=
  { title := item.title
    url := "https://www.youtube.com/watch?v=" ++ item.id
    duration := pyRound2 dur }

/-- The item loop of `filter_videos`, carrying the `filtered` accumulator;
a failed duration parse models the exception that aborts the loop and is
caught by the enclosing `try`, so the records accumulated so far are
returned. -/
def filterLoop : List Item → List Video → List Video
  | [], filtered => filtered
  | item :: rest, filtered =>
    match parse_duration item.duration with
    | none => filtered
    | some dur =>
      if 4 ≤ dur ∧ dur ≤ 20 then
        filterLoop rest (filtered ++ [video_record item dur])
      else
        filterLoop rest filtered

/-- `filter_videos` from `src/app.py`.  `apiResult` is the outcome of the
batched `youtube.videos().list(...).execute()` call. -/
def filter_videos (ids : List String) (apiResult : Except String (List Item)) :
    List Video :=
  if ids.isEmpty then []
  else
    match apiResult with
    | .error _ => []
    | .ok items => filterLoop items []

/-- Python `int(str)` on an already-stripped string: an optional sign
followed by one or more decimal digits; anything else raises (`none`). -/
def pyInt (str : String) : Option Int :=
  let core : List Char → Option Nat := fun ds =>
    if ds ≠ [] ∧ ds.all Char.isDigit then some (digitsVal ds) else none
  match str.data with
  | '+' :: ds => (core ds).map (fun n => (n : Int))
  | '-' :: ds => (core ds).map (fun n => -(n : Int))
  | ds => (core ds).map (fun n => (n : Int))

/-- Python `str.strip()` with no arguments: drops leading and trailing
whitespace characters. -/
def pyStrip (s : String) : String :=
  String.mk (((s.data.dropWhile Char.isWhitespace).reverse.dropWhile
    Char.isWhitespace).reverse)

/-- `select_best_video` from `src/app.py`.  `modelReply` is the outcome of
the `model.generate_content(prompt).text` call; an `ok` payload is stripped
and parsed as the source does, and `error` stands for any exception inside
the `try` block. -/
def select_best_video (videos : List Video) (query : String)
    (modelReply : Except String String) : Option Video :=
  if videos.isEmpty ∨ query.isEmpty then
    videos.head?
  else
    match modelReply with
    | .error _ => videos.head?
    | .ok text =>
      match pyInt (pyStrip text) with
      | none => videos.head?
      | some choice =>
        let idx : Int := choice - 1
        if 0 ≤ idx ∧ idx < (videos.length : Int) then videos.get? idx.toNat
        else videos.head?

/-- One rendered result line of the Displaying step of the main workflow. -/
def result_line (i : Nat) (v : Video) : String :=
  toString (i + 1) ++ ". **" ++ v.title ++ "** (" ++ toString v.duration ++
    " min) - [Watch](" ++ v.url ++ ")"

/-- The extra line rendered when more than 5 videos were filtered. -/
def more_line (n : Nat) : String := "...and " ++ toString n ++ " more."

/-- The Displaying step of the main workflow: the Markdown lines rendered
for a non-empty filtered list — one numbered line per video of `filtered`
truncated to 5, then, when more than 5 were filtered, a line counting the
remainder. -/
def display_results (filtered : List Video) : List String :=
  ((filtered.take 5).enum.map (fun p => result_line p.1 p.2)) ++
    (if 5 < filtered.length then [more_line (filtered.length - 5)] else [])

/-! ### Digit and numeral lemmas -/

theorem digitVal_digitChar {d : Nat} (h : d < 10) : digitVal (Nat.digitChar d) = d := by
  interval_cases d <;> decide

theorem isDigit_digitChar {d : Nat} (h : d < 10) : (Nat.digitChar d).isDigit = true := by
  interval_cases d <;> decide

theorem digitsVal_cons (c : Char) (cs : List Char) :
    digitsVal (c :: cs) = cs.foldl (fun a x => a * 10 + digitVal x) (digitVal c) := by
  simp [digitsVal]

theorem natToDigits_spec (n : Nat) :
    digitsVal (natToDigits n) = n ∧ (∀ c ∈ natToDigits n, c.isDigit = true) ∧
      natToDigits n ≠ [] := by
  induction n using Nat.strong_induction_on with
  | _ n ih =>
    rw [natToDigits]
    split
    · next h =>
      refine ⟨?_, ?_, by simp⟩
      · simp [digitsVal, digitVal_digitChar h]
      · intro c hc
        simp only [List.mem_singleton] at hc
        subst hc
        exact isDigit_digitChar h
    · next h =>
      have hlt : n / 10 < n := Nat.div_lt_self (by omega) (by omega)
      obtain ⟨ih1, ih2, _⟩ := ih _ hlt
      refine ⟨?_, ?_, by simp⟩
      · rw [digitsVal, List.foldl_append]
        have hbase : (natToDigits (n / 10)).foldl (fun a c => a * 10 + digitVal c) 0 =
            digitsVal (natToDigits (n / 10)) := rfl
        rw [hbase, ih1]
        simp only [List.foldl_cons, List.foldl_nil]
        rw [digitVal_digitChar (Nat.mod_lt _ (by omega))]
        omega
      · intro c hc
        rcases List.mem_append.mp hc with h1 | h1
        · exact ih2 c h1
        · simp only [List.mem_singleton] at h1
          subst h1
          exact isDigit_digitChar (Nat.mod_lt _ (by omega))

/-! ### takeWhile / dropWhile over a run of satisfying characters -/

theorem takeWhile_all_append {p : Char → Bool} {l : List Char} (r : List Char)
    (h : ∀ c ∈ l, p c = true) :
    (l ++ r).takeWhile p = l ++ r.takeWhile p := by
  induction l with
  | nil => rfl
  | cons c cs ih =>
    have hc : p c = true := h c (by simp)
    simp only [List.cons_append, List.takeWhile_cons, hc, if_true]
    rw [ih (fun x hx => h x (by simp [hx]))]

theorem dropWhile_all_append {p : Char → Bool} {l : List Char} (r : List Char)
    (h : ∀ c ∈ l, p c = true) :
    (l ++ r).dropWhile p = r.dropWhile p := by
  induction l with
  | nil => rfl
  | cons c cs ih =>
    have hc : p c = true := h c (by simp)
    simp only [List.cons_append, List.dropWhile_cons, hc, if_true]
    exact ih (fun x hx => h x (by simp [hx]))

theorem splitComp_digits {digits rest : List Char} {d : Char}
    (hne : digits ≠ []) (hdig : ∀ c ∈ digits, c.isDigit = true)
    (hd : d.isDigit = false) :
    splitComp (digits ++ d :: rest) d = (some (digitsVal digits), rest) := by
  have ht : (digits ++ d :: rest).takeWhile Char.isDigit = digits := by
    rw [takeWhile_all_append _ hdig]
    simp [List.takeWhile_cons, hd]
  have hw : (digits ++ d :: rest).dropWhile Char.isDigit = d :: rest := by
    rw [dropWhile_all_append _ hdig]
    simp [List.dropWhile_cons, hd]
  simp [splitComp, ht, hw, hne]

theorem parseTimePart_canonical {dh dm ds : List Char}
    (h1 : dh ≠ []) (h2 : ∀ c ∈ dh, c.isDigit = true)
    (h3 : dm ≠ []) (h4 : ∀ c ∈ dm, c.isDigit = true)
    (h5 : ds ≠ []) (h6 : ∀ c ∈ ds, c.isDigit = true) :
    parseTimePart (dh ++ 'H' :: (dm ++ 'M' :: (ds ++ ['S']))) =
      some (digitsVal dh * 3600 + digitsVal dm * 60 + digitsVal ds) := by
  have e1 := @splitComp_digits dh (dm ++ 'M' :: (ds ++ ['S'])) 'H' h1 h2 (by decide)
  have e2 := @splitComp_digits dm (ds ++ ['S']) 'M' h3 h4 (by decide)
  have e3 := @splitComp_digits ds [] 'S' h5 h6 (by decide)
  simp [parseTimePart, e1, e2, e3]

/-- The canonical ISO-8601 time-duration string with the given hour, minute
and second components, e.g. `mkDur 0 5 30 = "PT0H5M30S"`. -/
def mkDur (h m s : Nat) : String :=
  String.mk ('P' :: 'T' ::
    (natToDigits h ++ 'H' :: (natToDigits m ++ 'M' :: (natToDigits s ++ ['S']))))

theorem isodate_total_seconds_mkDur (h m s : Nat) :
    isodate_total_seconds (mkDur h m s) = some (h * 3600 + m * 60 + s) := by
  obtain ⟨eh, dh, nh⟩ := natToDigits_spec h
  obtain ⟨em, dm, nm⟩ := natToDigits_spec m
  obtain ⟨es, dsd, ns⟩ := natToDigits_spec s
  have : isodate_total_seconds (mkDur h m s) =
      parseTimePart (natToDigits h ++ 'H' ::
        (natToDigits m ++ 'M' :: (natToDigits s ++ ['S']))) := rfl
  rw [this, parseTimePart_canonical nh dh nm dm ns dsd, eh, em, es]

/-! ### Rounding preserves the duration window -/

theorem pyRound2_bounds {q : ℚ} (h1 : 4 ≤ q) (h2 : q ≤ 20) :
    4 ≤ pyRound2 q ∧ pyRound2 q ≤ 20 := by
  have hf1 : (400 : ℤ) ≤ ⌊q * 100⌋ := by
    rw [Int.le_floor]
    push_cast
    linarith
  have hf1q : (400 : ℚ) ≤ (⌊q * 100⌋ : ℚ) := by exact_mod_cast hf1
  have hf2 : ((⌊q * 100⌋ : ℤ) : ℚ) ≤ q * 100 := Int.floor_le _
  have hf3 : ((⌊q * 100⌋ : ℤ) : ℚ) ≤ 2000 := by linarith
  have hplus : ¬ (q * 100 - (⌊q * 100⌋ : ℚ) < 1/2) →
      ((⌊q * 100⌋ : ℤ) : ℚ) + 1 ≤ 2000 := by
    intro hge
    have hfq : ((⌊q * 100⌋ : ℤ) : ℚ) < 2000 := by linarith
    have hfz : (⌊q * 100⌋ : ℤ) < 2000 := by exact_mod_cast hfq
    have : (⌊q * 100⌋ : ℤ) + 1 ≤ 2000 := by omega
    exact_mod_cast this
  simp only [pyRound2]
  split_ifs with ha hb hc
  · constructor <;> linarith
  · refine ⟨by push_cast; linarith, ?_⟩
    have := hplus ha
    push_cast at this ⊢
    linarith
  · constructor <;> linarith
  · refine ⟨by push_cast; linarith, ?_⟩
    have := hplus ha
    push_cast at this ⊢
    linarith

/-! ### The filter loop -/

theorem filterLoop_acc (items : List Item) :
    ∀ acc : List Video, filterLoop items acc = acc ++ filterLoop items [] := by
  induction items with
  | nil => simp [filterLoop]
  | cons item rest ih =>
    intro acc
    simp only [filterLoop]
    split
    · simp
    · split_ifs with hr
      · next dur heq =>
        rw [ih (acc ++ [video_record item dur]), ih ([] ++ [video_record item dur])]
        simp
      · exact ih acc

theorem filterLoop_duration_bounds (items : List Item) :
    ∀ acc : List Video, (∀ v ∈ acc, 4 ≤ v.duration ∧ v.duration ≤ 20) →
      ∀ v ∈ filterLoop items acc, 4 ≤ v.duration ∧ v.duration ≤ 20 := by
  induction items with
  | nil =>
    intro acc hacc v hv
    exact hacc v hv
  | cons item rest ih =>
    intro acc hacc v hv
    simp only [filterLoop] at hv
    split at hv
    · exact hacc v hv
    · next dur heq =>
      split_ifs at hv with hr
      · refine ih _ ?_ v hv
        intro w hw
        rcases List.mem_append.mp hw with h | h
        · exact hacc w h
        · simp only [List.mem_singleton] at h
          subst h
          exact pyRound2_bounds hr.1 hr.2
      · exact ih _ hacc v hv

theorem filterLoop_stops {bad : Item} (hbad : parse_duration bad.duration = none) :
    ∀ (pre : List Item) (post : List Item) (acc : List Video),
      filterLoop (pre ++ bad :: post) acc = filterLoop pre acc := by
  intro pre
  induction pre with
  | nil =>
    intro post acc
    simp [filterLoop, hbad]
  | cons it rest ih =>
    intro post acc
    simp only [List.cons_append, filterLoop]
    split
    · rfl
    · split_ifs with hr
      · exact ih post _
      · exact ih post _

theorem filterLoop_sublist (items : List Item) :
    (filterLoop items []).Sublist
      (items.filterMap (fun it => (parse_duration it.duration).map (video_record it))) := by
  induction items with
  | nil => simp [filterLoop]
  | cons item rest ih =>
    simp only [filterLoop, List.filterMap_cons]
    cases hp : parse_duration item.duration with
    | none => simp [hp]
    | some dur =>
      simp only [hp, Option.map_some']
      split_ifs with hr
      · rw [filterLoop_acc]
        simp only [List.nil_append, List.singleton_append]
        exact ih.cons₂ _
      · exact ih.cons _

/-! ### Claim theorems: search, parse, filter -/

/-- C1: for every input identifier sequence and every metadata API outcome,
every Video Record returned by `filter_videos` has its duration field inside
the inclusive window 4 ≤ duration ≤ 20 minutes; no record outside the range
is ever in the output. -/
theorem filter_videos_duration_in_range (ids : List String)
    (apiResult : Except String (List Item)) (v : Video)
    (hv : v ∈ filter_videos ids apiResult) :
    4 ≤ v.duration ∧ v.duration ≤ 20 := by
  cases apiResult with
  | error e =>
    simp [filter_videos] at hv
  | ok items =>
    unfold filter_videos at hv
    split_ifs at hv with h
    · simp at hv
    · exact filterLoop_duration_bounds items [] (by simp) v hv

theorem filter_videos_duration_in_range_witness :
    (video_record ⟨"abc", "T", "PT5M0S"⟩ 5 ∈
        filter_videos ["x"] (.ok [⟨"abc", "T", "PT5M0S"⟩])) ∧
      4 ≤ (video_record ⟨"abc", "T", "PT5M0S"⟩ 5).duration ∧
      (video_record ⟨"abc", "T", "PT5M0S"⟩ 5).duration ≤ 20 := by
  have hp : parse_duration "PT5M0S" = some 5 := by
    rw [parse_duration, (by decide : isodate_total_seconds "PT5M0S" = some 300)]
    simp only [Option.map_some']
    norm_num
  have h45 : (4 : ℚ) ≤ 5 ∧ (5 : ℚ) ≤ 20 := by norm_num
  have hmem : video_record ⟨"abc", "T", "PT5M0S"⟩ 5 ∈
      filter_videos ["x"] (.ok [⟨"abc", "T", "PT5M0S"⟩]) := by
    unfold filter_videos
    rw [if_neg (by decide)]
    show video_record _ 5 ∈ filterLoop [⟨"abc", "T", "PT5M0S"⟩] []
    simp only [filterLoop, hp, if_pos h45]
    simp
  exact ⟨hmem, filter_videos_duration_in_range _ _ _ hmem⟩

/-- C5: `parse_duration` computes hours×60 + minutes + seconds/60 minutes on
every canonical ISO-8601 time-duration string; in particular "PT5M30S"
parses to 5.5 minutes; malformed input yields a failure that propagates to
the caller instead of a value. -/
theorem parse_duration_spec :
    (∀ h m s : Nat, parse_duration (mkDur h m s) =
      some ((h : ℚ) * 60 + (m : ℚ) + (s : ℚ) / 60)) ∧
    parse_duration "PT5M30S" = some (5.5 : ℚ) ∧
    parse_duration "5M30S" = none ∧
    parse_duration "PT" = none ∧
    parse_duration "" = none := by
  refine ⟨?_, ?_, ?_, ?_, ?_⟩
  · intro h m s
    rw [parse_duration, isodate_total_seconds_mkDur]
    simp only [Option.map_some', Option.some.injEq]
    push_cast
    field_simp
    ring
  · rw [parse_duration, (by decide : isodate_total_seconds "PT5M30S" = some 330)]
    simp only [Option.map_some', Option.some.injEq]
    norm_num
  · rw [parse_duration, (by decide : isodate_total_seconds "5M30S" = none)]
    rfl
  · rw [parse_duration, (by decide : isodate_total_seconds "PT" = none)]
    rfl
  · rw [parse_duration, (by decide : isodate_total_seconds "" = none)]
    rfl

/-- C6: `search_youtube` returns the empty sequence on an empty query (the
API call is skipped) and whenever the single API call fails (the error is
absorbed rather than propagated, and there is no retry). -/
theorem search_youtube_empty_and_failure :
    (∀ apiResult : Except String (List SearchItem), search_youtube "" apiResult = []) ∧
    (∀ (query : String) (e : String), search_youtube query (.error e) = []) := by
  constructor
  · intro apiResult
    rfl
  · intro query e
    unfold search_youtube
    split_ifs <;> rfl

/-- C7: if the metadata fetch raises, `filter_videos` returns the empty
list; if some item's duration parse raises, it returns exactly the records
accumulated from the items before the failing one — the items after it are
never processed — and no error propagates. -/
theorem filter_videos_partial_failure (ids : List String) :
    (∀ e : String, filter_videos ids (.error e) = []) ∧
    (∀ (pre post : List Item) (bad : Item), parse_duration bad.duration = none →
      filter_videos ids (.ok (pre ++ bad :: post)) = filter_videos ids (.ok pre)) := by
  constructor
  · intro e
    unfold filter_videos
    split_ifs <;> rfl
  · intro pre post bad hbad
    unfold filter_videos
    split_ifs with h
    · rfl
    · exact filterLoop_stops hbad pre post []

theorem filter_videos_partial_failure_witness :
    parse_duration (⟨"g2", "Bad", "oops"⟩ : Item).duration = none ∧
    filter_videos ["x"]
        (.ok [⟨"g1", "Good", "PT5M0S"⟩, ⟨"g2", "Bad", "oops"⟩, ⟨"g3", "Good2", "PT6M0S"⟩]) =
      filter_videos ["x"] (.ok [⟨"g1", "Good", "PT5M0S"⟩]) := by
  have hbad : parse_duration (⟨"g2", "Bad", "oops"⟩ : Item).duration = none := by
    show parse_duration "oops" = none
    rw [parse_duration, (by decide : isodate_total_seconds "oops" = none)]
    rfl
  refine ⟨hbad, ?_⟩
  exact (filter_videos_partial_failure ["x"]).2
    [⟨"g1", "Good", "PT5M0S"⟩] [⟨"g3", "Good2", "PT6M0S"⟩] _ hbad

/-- C8: the output of `filter_videos` is an order-preserving subsequence of
the metadata response: it is a sublist of the response items mapped, in
response order, to their Video Records. -/
theorem filter_videos_order_preserving (ids : List String) (items : List Item) :
    (filter_videos ids (.ok items)).Sublist
      (items.filterMap (fun it => (parse_duration it.duration).map (video_record it))) := by
  unfold filter_videos
  split_ifs with h
  · exact List.nil_sublist _
  · exact filterLoop_sublist items

/-! ### Branch lemmas for the Best-Pick Selector -/

theorem select_best_video_error_case (videos : List Video) (query : String) (e : String)
    (hg : videos.isEmpty = false) (hq : query.isEmpty = false) :
    select_best_video videos query (.error e) = videos.head? := by
  unfold select_best_video
  rw [if_neg (by simp [hg, hq])]

theorem select_best_video_ok_none (videos : List Video) (query : String) (text : String)
    (hg : videos.isEmpty = false) (hq : query.isEmpty = false)
    (hp : pyInt (pyStrip text) = none) :
    select_best_video videos query (.ok text) = videos.head? := by
  unfold select_best_video
  rw [if_neg (by simp [hg, hq])]
  show (match pyInt (pyStrip text) with
    | none => videos.head?
    | some choice =>
      if 0 ≤ choice - 1 ∧ choice - 1 < (videos.length : Int) then
        videos.get? (choice - 1).toNat
      else videos.head?) = videos.head?
  rw [hp]

theorem select_best_video_ok_some (videos : List Video) (query : String) (text : String)
    (k : Int) (hg : videos.isEmpty = false) (hq : query.isEmpty = false)
    (hp : pyInt (pyStrip text) = some k) :
    select_best_video videos query (.ok text) =
      if 0 ≤ k - 1 ∧ k - 1 < (videos.length : Int) then videos.get? (k - 1).toNat
      else videos.head? := by
  unfold select_best_video
  rw [if_neg (by simp [hg, hq])]
  show (match pyInt (pyStrip text) with
    | none => videos.head?
    | some choice =>
      if 0 ≤ choice - 1 ∧ choice - 1 < (videos.length : Int) then
        videos.get? (choice - 1).toNat
      else videos.head?) = _
  rw [hp]

theorem isEmpty_false_of_ne_nil {videos : List Video} (hv : videos ≠ []) :
    videos.isEmpty = false := by
  cases videos with
  | nil => exact absurd rfl hv
  | cons a l => rfl

theorem isEmpty_false_of_ne_empty {s : String} (hq : s ≠ "") :
    s.isEmpty = false := by
  cases hqq : s.isEmpty with
  | false => rfl
  | true => exact absurd ((String.isEmpty_iff s).mp hqq) hq

/-! ### Claim theorems: the Best-Pick Selector -/

/-- C2: `select_best_video` on an empty list returns `none` for every query
and every model outcome; on a non-empty list with an empty query it returns
the first video, whatever the model outcome — the model is never consulted
on these paths. -/
theorem select_best_video_edge_cases :
    (∀ (query : String) (modelReply : Except String String),
      select_best_video [] query modelReply = none) ∧
    (∀ (v : Video) (vs : List Video) (modelReply : Except String String),
      select_best_video (v :: vs) "" modelReply = some v) := by
  constructor
  · intro query modelReply
    rfl
  · intro v vs modelReply
    rfl

/-- C3: for a non-empty list and non-empty query, when the stripped model
reply parses as an integer k with 1 ≤ k ≤ len(videos),
`select_best_video` returns the k-th video, 1-based. -/
theorem select_best_video_valid_choice (videos : List Video) (query : String)
    (reply : String) (k : Int) (hq : query ≠ "")
    (hp : pyInt (pyStrip reply) = some k) (hk1 : 1 ≤ k)
    (hk2 : k ≤ (videos.length : Int)) :
    select_best_video videos query (.ok reply) = videos.get? (k - 1).toNat ∧
      (videos.get? (k - 1).toNat).isSome = true := by
  have hlen : 1 ≤ videos.length := by exact_mod_cast hk1.trans hk2
  have hve : videos.isEmpty = false :=
    isEmpty_false_of_ne_nil (by intro h; rw [h] at hlen; simp at hlen)
  have hin : 0 ≤ k - 1 ∧ k - 1 < (videos.length : Int) := by omega
  rw [select_best_video_ok_some videos query reply k hve (isEmpty_false_of_ne_empty hq) hp,
    if_pos hin]
  refine ⟨rfl, ?_⟩
  have hlt : (k - 1).toNat < videos.length := by omega
  rw [List.get?_eq_get hlt]
  rfl

theorem select_best_video_valid_choice_witness :
    select_best_video [⟨"A", "ua", 5⟩, ⟨"B", "ub", 6⟩] "q" (.ok "2") =
        [(⟨"A", "ua", 5⟩ : Video), ⟨"B", "ub", 6⟩].get? ((2 : Int) - 1).toNat ∧
      ([(⟨"A", "ua", 5⟩ : Video), ⟨"B", "ub", 6⟩].get? ((2 : Int) - 1).toNat).isSome = true :=
  select_best_video_valid_choice [⟨"A", "ua", 5⟩, ⟨"B", "ub", 6⟩] "q" "2" 2
    (by decide) (by decide) (by decide) (by decide)

/-- C4: for a non-empty list and non-empty query, a model exception, an
unparseable reply, an out-of-range parsed index, or the reply "0" all make
`select_best_video` return the first video of the list, and no error ever
propagates. -/
theorem select_best_video_fallback (videos : List Video) (query : String)
    (hv : videos ≠ []) (hq : query ≠ "") :
    (∀ e, select_best_video videos query (.error e) = videos.head?) ∧
    (∀ reply, pyInt (pyStrip reply) = none →
      select_best_video videos query (.ok reply) = videos.head?) ∧
    (∀ reply k, pyInt (pyStrip reply) = some k →
      (k < 1 ∨ (videos.length : Int) < k) →
      select_best_video videos query (.ok reply) = videos.head?) ∧
    (∀ reply, pyStrip reply = "0" →
      select_best_video videos query (.ok reply) = videos.head?) ∧
    videos.head? = videos.get? 0 ∧ (videos.head?).isSome = true := by
  have hve : videos.isEmpty = false := isEmpty_false_of_ne_nil hv
  have hqe : query.isEmpty = false := isEmpty_false_of_ne_empty hq
  have hout : ∀ reply k, pyInt (pyStrip reply) = some k →
      (k < 1 ∨ (videos.length : Int) < k) →
      select_best_video videos query (.ok reply) = videos.head? := by
    intro reply k hp hk
    rw [select_best_video_ok_some videos query reply k hve hqe hp,
      if_neg (by omega)]
  refine ⟨?_, ?_, hout, ?_, ?_, ?_⟩
  · intro e
    exact select_best_video_error_case videos query e hve hqe
  · intro reply hp
    exact select_best_video_ok_none videos query reply hve hqe hp
  · intro reply h0
    refine hout reply 0 ?_ (Or.inl (by omega))
    rw [h0]
    decide
  · cases videos with
    | nil => exact absurd rfl hv
    | cons a l => rfl
  · cases videos with
    | nil => exact absurd rfl hv
    | cons a l => rfl

theorem select_best_video_fallback_witness :
    select_best_video [⟨"A", "ua", 5⟩] "q" (.ok "0") =
        [(⟨"A", "ua", 5⟩ : Video)].head? ∧
      ([(⟨"A", "ua", 5⟩ : Video)].head?).isSome = true := by
  have h := select_best_video_fallback [⟨"A", "ua", 5⟩] "q" (by simp) (by decide)
  exact ⟨h.2.2.2.1 "0" (by decide), h.2.2.2.2.2⟩

/-- C10: on any non-empty video list `select_best_video` returns some
element of the list — never `none` — whatever the query and whatever the
model call does. -/
theorem select_best_video_never_none (videos : List Video) (query : String)
    (modelReply : Except String String) (hv : videos ≠ []) :
    ∃ v ∈ videos, select_best_video videos query modelReply = some v := by
  obtain ⟨v0, vs, rfl⟩ := List.exists_cons_of_ne_nil hv
  have hge : (v0 :: vs).isEmpty = false := rfl
  have hhd : (v0 :: vs).head? = some v0 := rfl
  by_cases hq : query.isEmpty = true
  · refine ⟨v0, by simp, ?_⟩
    unfold select_best_video
    rw [if_pos (Or.inr hq)]
    exact hhd
  · have hqe : query.isEmpty = false := by simpa using hq
    cases modelReply with
    | error e =>
      exact ⟨v0, by simp,
        (select_best_video_error_case (v0 :: vs) query e hge hqe).trans hhd⟩
    | ok text =>
      cases hp : pyInt (pyStrip text) with
      | none =>
        exact ⟨v0, by simp,
          (select_best_video_ok_none (v0 :: vs) query text hge hqe hp).trans hhd⟩
      | some k =>
        by_cases hin : 0 ≤ k - 1 ∧ k - 1 < ((v0 :: vs).length : Int)
        · have hlt : (k - 1).toNat < (v0 :: vs).length := by omega
          refine ⟨(v0 :: vs).get ⟨(k - 1).toNat, hlt⟩, List.get_mem _ _ _, ?_⟩
          rw [select_best_video_ok_some (v0 :: vs) query text k hge hqe hp, if_pos hin,
            List.get?_eq_get hlt]
        · refine ⟨v0, by simp, ?_⟩
          rw [select_best_video_ok_some (v0 :: vs) query text k hge hqe hp, if_neg hin]
          exact hhd

theorem select_best_video_never_none_witness :
    select_best_video [(⟨"A", "ua", 5⟩ : Video)] "q" (.error "boom") =
      some ⟨"A", "ua", 5⟩ := by
  obtain ⟨v, hv, he⟩ :=
    select_best_video_never_none [⟨"A", "ua", 5⟩] "q" (.error "boom") (by simp)
  rw [List.mem_singleton] at hv
  rw [he, hv]

/-! ### Claim theorem: the Displaying step -/

/-- C9: for a non-empty filtered list the Displaying step renders exactly
min(len, 5) result lines — the first five records in order — together with
the "...and N more." line, N = len − 5, present exactly when len > 5. -/
theorem display_results_spec (filtered : List Video) (hne : filtered ≠ []) :
    (display_results filtered).length =
        min filtered.length 5 + (if 5 < filtered.length then 1 else 0) ∧
    (∀ i, i < min filtered.length 5 →
        (display_results filtered)[i]? = (filtered[i]?).map (result_line i)) ∧
    (5 < filtered.length →
        (display_results filtered).getLast? = some (more_line (filtered.length - 5))) := by
  have hA : ((filtered.take 5).enum.map (fun p => result_line p.1 p.2)).length =
      min filtered.length 5 := by
    simp [Nat.min_comm]
  refine ⟨?_, ?_, ?_⟩
  · rw [display_results, List.length_append, hA]
    split_ifs <;> simp
  · intro i hi
    rw [display_results, List.getElem?_append_left (by rw [hA]; exact hi),
      List.getElem?_map, List.enum_eq_enumFrom, List.getElem?_enumFrom,
      List.getElem?_take_of_lt (lt_of_lt_of_le hi (min_le_right _ _))]
    cases filtered[i]? with
    | none => rfl
    | some v => simp [result_line]
  · intro h5
    rw [display_results, if_pos h5, List.getLast?_concat]

theorem display_results_spec_witness :
    ([(⟨"A", "ua", 5⟩ : Video)] ≠ []) ∧
      (display_results [⟨"A", "ua", 5⟩]).length =
        min ([(⟨"A", "ua", 5⟩ : Video)]).length 5 +
          (if 5 < ([(⟨"A", "ua", 5⟩ : Video)]).length then 1 else 0) :=
  ⟨by simp, (display_results_spec [⟨"A", "ua", 5⟩] (by simp)).1⟩

end YTApp
